import Mathlib

/-!
Shallow embedding of the repository's two kernel resource managers:

* `src/kernel/kalloc.c` — the per-CPU physical page-frame allocator
  (`kinit`/`freerange`/`kfree`/`kalloc` with cross-CPU `steal`), and
* `src/kernel/bio.c`   — the bucketed disk-block buffer cache
  (`binit`/`bget`/`bread`/`bwrite`/`brelse`/`bpin`/`bunpin`).

The embedding is sequential: spinlocks and sleep-locks serialize every
operation in the source, so each C function becomes a pure state
transformer.  The sleep-lock is kept as data (`holder : Option Nat`, the
pid recorded by `acquiresleep`/checked by `holdingsleep`), because
`bwrite`/`brelse` branch on it.  Fatal `panic(...)` calls are modelled by
returning `none`.  The intrusive circular doubly-linked bucket lists are
modelled as Lean lists of slot indices, most-recently-inserted first
(the position right after `head` in the C list is the Lean list head);
unlink/insert-at-head become `erase`/`cons`.  Machine `uint` arithmetic
on `refcnt` is `Nat` arithmetic modulo `2 ^ 32`.
-/

set_option maxRecDepth 10000

namespace OSLabs

/-! ### Generic helpers for positional list update -/

theorem getD_set_self {α : Type} (l : List α) (j : Nat) (b d : α) (hj : j < l.length) :
    (l.set j b).getD j d = b := by
  rw [List.getD_eq_getElem?_getD]
  simp [List.getElem?_set_self', List.getElem?_eq_getElem hj]

theorem getD_set_ne {α : Type} (l : List α) (j i : Nat) (b d : α) (hij : j ≠ i) :
    (l.set j b).getD i d = l.getD i d := by
  rw [List.getD_eq_getElem?_getD, List.getD_eq_getElem?_getD, List.getElem?_set_ne hij]

theorem getD_mem_of_lt {α : Type} (l : List α) (i : Nat) (d : α) (hi : i < l.length) :
    l.getD i d ∈ l := by
  rw [List.getD_eq_getElem?_getD, List.getElem?_eq_getElem hi]
  exact List.getElem_mem hi

theorem getD_of_length_le {α : Type} (l : List α) (i : Nat) (d : α) (hi : l.length ≤ i) :
    l.getD i d = d := by
  rw [List.getD_eq_getElem?_getD, List.getElem?_eq_none hi]
  rfl

/-! ### Embedding of `src/kernel/kalloc.c`

State: one free list per CPU (`freelists`, head = top of the LIFO list,
frames named by their physical address) plus a journal of the last
`memset` fill byte written to each frame (`fill`, an association list,
most recent first), which models the poison patterns `memset(pa, 1, ...)`
in `kfree` and `memset(r, 5, ...)` in `kalloc`. -/

def PGSIZE : Nat := 4096

structure Kmem where
  freelists : List (List Nat)
  fill : List (Nat × Nat)
deriving DecidableEq

/-- The loop body chain of `steal`: for each other CPU index `j` (in the
ascending order of `for(k2 = kmems; k2 < &kmems[NCPU]; k2++)`, skipping
`k1 == k2`), pop one frame off `j`'s free list if it has one and push it
onto the scavenging CPU's own list. -/
def stealFrom (cpu : Nat) : List Nat → List (List Nat) → List (List Nat)
  | [], ks => ks
  | j :: rest, ks =>
    if j = cpu then stealFrom cpu rest ks
    else
      match ks.getD j [] with
      | [] => stealFrom cpu rest ks
      | r :: tail => stealFrom cpu rest ((ks.set j tail).set cpu (r :: ks.getD cpu []))

/-- `steal` from kalloc.c: one scavenging pass over every other CPU's
free list. -/
def steal (cpu : Nat) (s : Kmem) : Kmem :=
  { s with freelists := stealFrom cpu (List.range s.freelists.length) s.freelists }

/-- `kfree(pa)` from kalloc.c, for the CPU the caller is running on
(`cpuid()` is pinned by `push_off`).  `panic("kfree")` (modelled as
`none`) exactly when `pa` is misaligned or outside `[end, PHYSTOP)`;
otherwise poison the frame with fill byte 1 and push it on the freeing
CPU's own list. -/
def kfree (endAddr physTop cpu pa : Nat) (s : Kmem) : Option Kmem :=
  if pa % PGSIZE ≠ 0 ∨ pa < endAddr ∨ physTop ≤ pa then none
  else
    some { freelists := s.freelists.set cpu (pa :: s.freelists.getD cpu [])
         , fill := (pa, 1) :: s.fill }

/-- The pool state at `kalloc`'s second read of `k->freelist`: the code
runs one `steal()` pass exactly when the first read found the local
list empty, then retries the pop once. -/
def kallocPool (cpu : Nat) (s : Kmem) : Kmem :=
  if s.freelists.getD cpu [] = [] then steal cpu s else s

/-- `kalloc()` itself: pop the (post-`steal`) local free list, filling
an allocated frame with poison byte 5; `none` is the C null return. -/
def kalloc (cpu : Nat) (s : Kmem) : Option Nat × Kmem :=
  match (kallocPool cpu s).freelists.getD cpu [] with
  | [] => (none, kallocPool cpu s)
  | r :: rest =>
    (some r, { freelists := (kallocPool cpu s).freelists.set cpu rest
             , fill := (r, 5) :: (kallocPool cpu s).fill })

/-- Modelled from the spec: the repository's kalloc.c keeps no per-frame
reference count and defines no `incref`; the spec's shared-frame
extension describes `incref(frame)` as incrementing a per-frame count
that `free` is said to consult.  The count is modelled as a ghost
association list (most recent binding first); a frame absent from the
list is at its post-`alloc` count 1.  The embedded `kfree` above — the
code's actual free path — never reads this structure. -/
def incref (pa : Nat) (counts : List (Nat × Nat)) : List (Nat × Nat) :=
  (pa, (match counts.lookup pa with | some n => n | none => 1) + 1) :: counts

/-- Number of occurrences of frame `pa` across all free lists. -/
def frameCount (pa : Nat) (s : Kmem) : Nat :=
  (s.freelists.map (fun l => l.count pa)).sum

/-! ### Embedding of `src/kernel/bio.c` -/

def U32 : Nat := 2 ^ 32

/-- Increment of a C `uint`, modulo `2 ^ 32`. -/
def incWrap (n : Nat) : Nat := (n + 1) % U32

/-- Decrement of a C `uint`, modulo `2 ^ 32` (so `decWrap 0 = 2 ^ 32 - 1`). -/
def decWrap (n : Nat) : Nat := (n + (U32 - 1)) % U32

/-- One `struct buf`: identity `(dev, blockno)`, the `valid` flag, the
`uint refcnt`, the sleep-lock state (`holder = some pid` iff
`b->lock.locked && b->lock.pid == pid`), and the cached block content
(abstracted to one `Nat`). -/
structure Buf where
  dev : Nat
  blockno : Nat
  valid : Bool
  refcnt : Nat
  holder : Option Nat
  data : Nat
deriving DecidableEq

/-- A `struct buf` as it sits in the zero-initialized C BSS after
`binit` ran `initsleeplock` on it. -/
def Buf.startup : Buf := ⟨0, 0, false, 0, none, 0⟩

/-- The whole `bcache`: the slot pool and, per bucket, the list of slot
indices currently linked into that bucket (list head = the node right
after the bucket's `head` sentinel, i.e. most recently inserted). -/
structure BCache where
  bufs : List Buf
  buckets : List (List Nat)
deriving DecidableEq

/-- `binit` from bio.c: every bucket list starts empty; then every slot
`b` in `bcache.buf` is pushed at the head of the FIRST bucket's list
(the C code sets `bucket = bcache.bucket;` once, before the loop, and
never advances it). -/
def binit (nbuf nbucket : Nat) : BCache :=
  { bufs := List.replicate nbuf Buf.startup
  , buckets :=
      (List.range nbuf).foldl (fun bs i => bs.set 0 (i :: bs.getD 0 []))
        (List.replicate nbucket []) }

/-- The cache-hit scan of `bget`: first index in the bucket list whose
slot matches `b->dev == dev && b->blockno == blockno`. -/
def findHit (bufs : List Buf) (dev blockno : Nat) : List Nat → Option Nat
  | [] => none
  | i :: rest =>
    if (bufs.getD i Buf.startup).dev = dev ∧ (bufs.getD i Buf.startup).blockno = blockno
    then some i
    else findHit bufs dev blockno rest

/-- Forward scan of a bucket list for the first slot with `refcnt == 0`
(the inner loop of the cross-bucket phase of `bget`). -/
def findFree (bufs : List Buf) : List Nat → Option Nat
  | [] => none
  | i :: rest =>
    if (bufs.getD i Buf.startup).refcnt = 0 then some i else findFree bufs rest

/-- The cross-bucket phase of `bget`: visit the buckets in ascending
index order (`for(p = bcache.bucket; p < bcache.bucket+NBUCKET; p++)`),
skipping the home bucket `h`, and return the first
`(bucket index, slot index)` whose slot has `refcnt == 0`. -/
def stealScan (bufs : List Buf) (buckets : List (List Nat)) (h : Nat) :
    List Nat → Option (Nat × Nat)
  | [] => none
  | p :: rest =>
    if p = h then stealScan bufs buckets h rest
    else
      match findFree bufs (buckets.getD p []) with
      | some i => some (p, i)
      | none => stealScan bufs buckets h rest

/-- The field assignments done to an eviction victim in `bget`:
`b->dev = dev; b->blockno = blockno; b->valid = 0; b->refcnt = 1;`
followed by `acquiresleep(&b->lock)`. -/
def repurposed (b : Buf) (dev blockno tid : Nat) : Buf :=
  { dev := dev, blockno := blockno, valid := false, refcnt := 1
  , holder := some tid, data := b.data }

/-- The last phase of `bget`: take the victim found by `stealScan`,
repurpose it, unlink it from its current bucket's list and relink it at
the home bucket's list head; `none` is `panic("bget: no buffers")`. -/
def bgetSteal (dev blockno tid : Nat) (s : BCache) (h : Nat) : Option (Nat × BCache) :=
  match stealScan s.bufs s.buckets h (List.range s.buckets.length) with
  | none => none
  | some (p, i) =>
    some (i, { bufs := s.bufs.set i (repurposed (s.bufs.getD i Buf.startup) dev blockno tid)
             , buckets := (s.buckets.set p ((s.buckets.getD p []).erase i)).set h
                 (i :: (s.buckets.set p ((s.buckets.getD p []).erase i)).getD h []) })

/-- `bget(dev, blockno)` from bio.c, called by thread `tid`.  Phase 1 is
the cache-hit scan; phase 2 is the bucket-local recycle loop
`for(b = bucket->head.next; b != &bucket->head; b = b->prev)`, which
starts at the element after `head` but steps backwards by `prev`, and
therefore inspects exactly the FIRST element of the bucket list (its
`prev` is the `head` sentinel, which terminates the loop); phase 3 is
the cross-bucket steal; `none` is `panic("bget: no buffers")`. -/
def bget (dev blockno tid : Nat) (s : BCache) : Option (Nat × BCache) :=
  match findHit s.bufs dev blockno (s.buckets.getD (blockno % s.buckets.length) []) with
  | some i =>
    some (i,
      { s with
          bufs := s.bufs.set i
                    ({ s.bufs.getD i Buf.startup with
                         refcnt := incWrap (s.bufs.getD i Buf.startup).refcnt
                       , holder := some tid }) })
  | none =>
    match (s.buckets.getD (blockno % s.buckets.length) []).head? with
    | some i =>
      if (s.bufs.getD i Buf.startup).refcnt = 0 then
        some (i,
          { s with
              bufs := s.bufs.set i
                        (repurposed (s.bufs.getD i Buf.startup) dev blockno tid) })
      else bgetSteal dev blockno tid s (blockno % s.buckets.length)
    | none => bgetSteal dev blockno tid s (blockno % s.buckets.length)

/-- The disk collaborator's state: association list from
`(dev, blockno)` to block content, most recent write first. -/
abbrev Disk := List ((Nat × Nat) × Nat)

def diskRead (d : Disk) (dev blockno : Nat) : Nat :=
  match d.lookup (dev, blockno) with
  | some v => v
  | none => 0

/-- `bread` from bio.c: `bget`, then a synchronous `virtio_disk_rw(b, 0)`
plus `b->valid = 1` when the slot was not valid. -/
def bread (dev blockno tid : Nat) (s : BCache) (d : Disk) : Option (Nat × BCache) :=
  match bget dev blockno tid s with
  | none => none
  | some (i, s1) =>
    if (s1.bufs.getD i Buf.startup).valid then some (i, s1)
    else
      some (i,
        { s1 with
            bufs := s1.bufs.set i
                      ({ s1.bufs.getD i Buf.startup with
                           data := diskRead d (s1.bufs.getD i Buf.startup).dev
                                     (s1.bufs.getD i Buf.startup).blockno
                         , valid := true }) })

/-- `bwrite` from bio.c: `panic("bwrite")` (`none`) unless the calling
thread holds the slot's sleep-lock; otherwise a synchronous
`virtio_disk_rw(b, 1)`, which records the slot's content on the disk
under the slot's identity and touches nothing in the cache. -/
def bwrite (i tid : Nat) (s : BCache) (d : Disk) : Option (BCache × Disk) :=
  if (s.bufs.getD i Buf.startup).holder = some tid then
    some (s, (((s.bufs.getD i Buf.startup).dev, (s.bufs.getD i Buf.startup).blockno),
              (s.bufs.getD i Buf.startup).data) :: d)
  else none

/-- `brelse` from bio.c: `panic("brelse")` (`none`) unless the calling
thread holds the slot's sleep-lock; otherwise release the lock,
decrement `refcnt` (C `uint` decrement), and — exactly when the new
count is 0 — unlink the slot from its current list position and relink
it at the head of bucket `b->blockno % NBUCKET`. -/
def brelse (i tid : Nat) (s : BCache) : Option BCache :=
  if (s.bufs.getD i Buf.startup).holder = some tid then
    if decWrap (s.bufs.getD i Buf.startup).refcnt = 0 then
      some { bufs := s.bufs.set i
                       ({ s.bufs.getD i Buf.startup with
                            holder := none
                          , refcnt := decWrap (s.bufs.getD i Buf.startup).refcnt })
           , buckets := (s.buckets.map (fun l => l.erase i)).set
                          ((s.bufs.getD i Buf.startup).blockno % s.buckets.length)
                          (i :: (s.buckets.map (fun l => l.erase i)).getD
                                  ((s.bufs.getD i Buf.startup).blockno % s.buckets.length) []) }
    else
      some { s with
               bufs := s.bufs.set i
                         ({ s.bufs.getD i Buf.startup with
                              holder := none
                            , refcnt := decWrap (s.bufs.getD i Buf.startup).refcnt }) }
  else none

/-- `bpin` from bio.c: increment `refcnt` under the bucket lock. -/
def bpin (i : Nat) (s : BCache) : BCache :=
  { s with
      bufs := s.bufs.set i
                ({ s.bufs.getD i Buf.startup with
                     refcnt := incWrap (s.bufs.getD i Buf.startup).refcnt }) }

/-- `bunpin` from bio.c: decrement `refcnt` (C `uint` decrement) under
the bucket lock; the function has no check and no panic path. -/
def bunpin (i : Nat) (s : BCache) : BCache :=
  { s with
      bufs := s.bufs.set i
                ({ s.bufs.getD i Buf.startup with
                     refcnt := decWrap (s.bufs.getD i Buf.startup).refcnt }) }

/-- The buffer-cache operations exposed by bio.c. -/
inductive BOp where
  | get (dev blockno tid : Nat)
  | read (dev blockno tid : Nat)
  | write (i tid : Nat)
  | relse (i tid : Nat)
  | pin (i : Nat)
  | unpin (i : Nat)

/-- One buffer-cache operation as a step on (cache, disk); `none` is a
`panic`. -/
def bstep (op : BOp) (s : BCache) (d : Disk) : Option (BCache × Disk) :=
  match op with
  | .get dev blockno tid => (bget dev blockno tid s).map (fun x => (x.2, d))
  | .read dev blockno tid => (bread dev blockno tid s d).map (fun x => (x.2, d))
  | .write i tid => bwrite i tid s d
  | .relse i tid => (brelse i tid s).map (fun s1 => (s1, d))
  | .pin i => some (bpin i s, d)
  | .unpin i => some (bunpin i s, d)

/-! ### Theorems -/

/-! #### C1: `bget` exhaustion despite an idle slot (code bug)

The bucket-local recycle loop
`for(b = bucket->head.next; b != &bucket->head; b = b->prev)` steps by
`prev` from `head.next`, so it inspects only the first element of the
home bucket's list, contradicting its own comment
`// Recycle the least recently used (LRU) unused buffer.`  The state
below is reached from `binit` with 2 slots and 2 buckets by a single
`bget(1, 0)` (thread 7), which pins slot 1 at the head of bucket 0. -/

def bugStateC1 : BCache :=
  ⟨[Buf.startup, ⟨1, 0, false, 1, some 7, 0⟩], [[1, 0], []]⟩

/-- C1: the code panics (`bget` returns `none`) on `bget(1, 2)` even
though slot 0 — the second element of home bucket 0's list — has
`refcnt = 0`, because the home-bucket recycle loop only examines the
first list element and the cross-bucket pass skips the home bucket. -/
theorem bget_exhaustion_despite_free_slot_C1 :
    bget 1 0 7 (binit 2 2) = some (1, bugStateC1) ∧
    (bugStateC1.bufs.getD 0 Buf.startup).refcnt = 0 ∧
    0 ∈ bugStateC1.buckets.getD (2 % bugStateC1.buckets.length) [] ∧
    bget 1 2 8 bugStateC1 = none := by decide

/-! #### C3: home-bucket free slot skipped in favour of cross-bucket steal
(code bug, same degenerate loop as C1)

The state below is reached from `binit` with 3 slots and 2 buckets by
`bget(1,0)` (thread 5, pins slot 2), `bget(1,1)` (thread 6, migrates
slot 1 to bucket 1), `brelse` of slot 1 (leaves it idle in bucket 1). -/

def bugStateC3 : BCache :=
  ⟨[Buf.startup, ⟨1, 1, false, 0, none, 0⟩, ⟨1, 0, false, 1, some 5, 0⟩], [[2, 0], [1]]⟩

def bugStateC3After : BCache :=
  ⟨[Buf.startup, ⟨1, 2, false, 1, some 7, 0⟩, ⟨1, 0, false, 1, some 5, 0⟩], [[1, 2, 0], []]⟩

/-- C3: on the miss `bget(1, 2)` (home bucket 0), slot 0 sits in home
bucket 0's list with `refcnt = 0`, yet `bget` repurposes slot 1, stolen
cross-bucket from bucket 1 — because the home-bucket scan only examines
the first element (slot 2, pinned). -/
theorem bget_skips_home_free_slot_C3 :
    bget 1 0 5 (binit 3 2) =
      some (2, ⟨[Buf.startup, Buf.startup, ⟨1, 0, false, 1, some 5, 0⟩], [[2, 1, 0], []]⟩) ∧
    bget 1 1 6 ⟨[Buf.startup, Buf.startup, ⟨1, 0, false, 1, some 5, 0⟩], [[2, 1, 0], []]⟩ =
      some (1, ⟨[Buf.startup, ⟨1, 1, false, 1, some 6, 0⟩, ⟨1, 0, false, 1, some 5, 0⟩], [[2, 0], [1]]⟩) ∧
    brelse 1 6 ⟨[Buf.startup, ⟨1, 1, false, 1, some 6, 0⟩, ⟨1, 0, false, 1, some 5, 0⟩], [[2, 0], [1]]⟩ =
      some bugStateC3 ∧
    (bugStateC3.bufs.getD 0 Buf.startup).refcnt = 0 ∧
    0 ∈ bugStateC3.buckets.getD (2 % bugStateC3.buckets.length) [] ∧
    1 ∈ bugStateC3.buckets.getD 1 [] ∧
    bget 1 2 7 bugStateC3 = some (1, bugStateC3After) := by decide

/-! #### C2: `binit` does not distribute slots across buckets -/

/-- C2 counterexample: with 2 slots and 2 buckets, `binit` links both
slots into bucket 0's list and leaves bucket 1's list empty, so the
slots are not distributed round-robin (or in equal partition) and not
every bucket's list is populated at startup. -/
theorem binit_single_bucket_C2 :
    (binit 2 2).buckets.length = 2 ∧
    (binit 2 2).buckets.getD 0 [] = [1, 0] ∧
    (binit 2 2).buckets.getD 1 [] = [] := by decide

/-- The `binit` slot loop pushes each successive slot index at the head
of the first bucket's list. -/
theorem binit_fold (n : Nat) (l0 : List Nat) (rest : List (List Nat)) :
    (List.range n).foldl (fun bs i => bs.set 0 (i :: bs.getD 0 [])) (l0 :: rest)
      = ((List.range n).reverse ++ l0) :: rest := by
  induction n with
  | zero => simp
  | succ n ih =>
    rw [List.range_succ, List.foldl_append, ih]
    simp [List.range_succ]

/-- After `binit`, the bucket array is bucket 0 holding every slot (in
descending index order) followed by `nbucket - 1` empty buckets. -/
theorem binit_buckets (nbuf nbucket : Nat) (h1 : 0 < nbucket) :
    (binit nbuf nbucket).buckets
      = (List.range nbuf).reverse :: List.replicate (nbucket - 1) [] := by
  unfold binit
  obtain ⟨m, rfl⟩ : ∃ m, nbucket = m + 1 := ⟨nbucket - 1, (Nat.succ_pred_eq_of_pos h1).symm⟩
  rw [List.replicate_succ, binit_fold]
  simp

theorem getD_replicate {α : Type} (k i : Nat) (a d : α) :
    (List.replicate k a).getD i d = if i < k then a else d := by
  rw [List.getD_eq_getElem?_getD, List.getElem?_replicate]
  by_cases h : i < k <;> simp [h]

/-- C2 amended: `binit` initializes every slot with its lock unlocked,
`refcnt = 0` and zeroed identity, and links every slot into the FIRST
bucket's list (each exactly once, across all bucket lists); every other
bucket's list starts empty. -/
theorem binit_spec_amended_C2 (nbuf nbucket : Nat) (h1 : 0 < nbucket) :
    (binit nbuf nbucket).buckets.length = nbucket ∧
    (binit nbuf nbucket).bufs.length = nbuf ∧
    (binit nbuf nbucket).buckets.getD 0 [] = (List.range nbuf).reverse ∧
    (∀ j, 0 < j → (binit nbuf nbucket).buckets.getD j [] = []) ∧
    (∀ i, i < nbuf → (((binit nbuf nbucket).buckets.map (fun l => l.count i)).sum = 1)) ∧
    (∀ i, i < nbuf → (binit nbuf nbucket).bufs.getD i Buf.startup = Buf.startup) := by
  rw [binit_buckets nbuf nbucket h1]
  refine ⟨?_, ?_, rfl, ?_, ?_, ?_⟩
  · simp
    omega
  · simp [binit]
  · intro j hj
    obtain ⟨j', rfl⟩ : ∃ j', j = j' + 1 := ⟨j - 1, (Nat.succ_pred_eq_of_pos hj).symm⟩
    rw [List.getD_cons_succ, getD_replicate]
    split <;> rfl
  · intro i hi
    have hcount : ((List.range nbuf).reverse).count i = 1 := by
      rw [List.count_reverse]
      exact List.count_eq_one_of_mem (List.nodup_range nbuf) (List.mem_range.mpr hi)
    simp [hcount, List.map_replicate]
  · intro i hi
    show (List.replicate nbuf Buf.startup).getD i Buf.startup = Buf.startup
    rw [getD_replicate]
    simp [hi]

/-- Closed instance of the amended C2 statement at `nbuf = 2`,
`nbucket = 2`. -/
theorem binit_spec_amended_C2_witness :
    (binit 2 2).buckets.getD 0 [] = (List.range 2).reverse ∧
    (binit 2 2).buckets.getD 1 [] = [] ∧
    (binit 2 2).bufs.getD 0 Buf.startup = Buf.startup :=
  ⟨(binit_spec_amended_C2 2 2 (by decide)).2.2.1,
   (binit_spec_amended_C2 2 2 (by decide)).2.2.2.1 1 (by decide),
   (binit_spec_amended_C2 2 2 (by decide)).2.2.2.2.2 0 (by decide)⟩

/-! #### C6: `kfree` has no reference count -/

/-- C6 counterexample, at `N = 1`: starting from a one-CPU pool whose
only frame 4096 is free (with `end = 4096`, `PHYSTOP = 8192`), `kalloc`
hands out frame 4096; one (spec-modelled) `incref` raises its ghost
count to 2; yet the FIRST of the two `kfree` calls already pushes the
frame onto CPU 0's free list (the code consults no count), and after the
second `kfree` the frame sits on the free list twice — not exactly
once. -/
theorem kfree_ignores_refcount_C6 :
    kalloc 0 (⟨[[4096]], []⟩ : Kmem) = (some 4096, ⟨[[]], [(4096, 5)]⟩) ∧
    incref 4096 [(4096, 1)] = [(4096, 2), (4096, 1)] ∧
    kfree 4096 8192 0 4096 (⟨[[]], [(4096, 5)]⟩ : Kmem)
      = some ⟨[[4096]], [(4096, 1), (4096, 5)]⟩ ∧
    frameCount 4096 (⟨[[4096]], [(4096, 1), (4096, 5)]⟩ : Kmem) = 1 ∧
    kfree 4096 8192 0 4096 (⟨[[4096]], [(4096, 1), (4096, 5)]⟩ : Kmem)
      = some ⟨[[4096, 4096]], [(4096, 1), (4096, 1), (4096, 5)]⟩ ∧
    frameCount 4096 (⟨[[4096, 4096]], [(4096, 1), (4096, 1), (4096, 5)]⟩ : Kmem) = 2 := by
  decide

/-- Replacing a list element exchanges its contribution to a mapped
sum. -/
theorem sum_map_set (f : List Nat → Nat) (l : List (List Nat)) (j : Nat) (v : List Nat)
    (hj : j < l.length) :
    ((l.set j v).map f).sum + f (l.getD j []) = (l.map f).sum + f v := by
  induction l generalizing j with
  | nil => simp at hj
  | cons a t ih =>
    cases j with
    | zero => simp [List.set]; omega
    | succ j =>
      simp only [List.set, List.map_cons, List.sum_cons, List.getD_cons_succ]
      have := ih j (by simpa using hj)
      omega

/-- C6 amended: every `kfree` of a valid frame address pushes the frame
onto the freeing CPU's free list unconditionally — the allocator keeps
no per-frame reference count, so a frame freed `N + 1` times appears on
free lists `N + 1` times (once per call), and the claimed
exactly-once behaviour holds only in the `N = 0` pairing. -/
theorem kfree_returns_frame_every_call_C6 (endA pt cpu pa : Nat) (s : Kmem)
    (hcpu : cpu < s.freelists.length) (ha : pa % PGSIZE = 0)
    (hlo : endA ≤ pa) (hhi : pa < pt) :
    ∃ s1, kfree endA pt cpu pa s = some s1 ∧
      s1.freelists.getD cpu [] = pa :: s.freelists.getD cpu [] ∧
      frameCount pa s1 = frameCount pa s + 1 := by
  have hcond : ¬ (pa % PGSIZE ≠ 0 ∨ pa < endA ∨ pt ≤ pa) := by
    push_neg
    exact ⟨ha, hlo, hhi⟩
  refine ⟨_, by rw [kfree, if_neg hcond], ?_, ?_⟩
  · exact getD_set_self _ _ _ _ hcpu
  · unfold frameCount
    dsimp only
    have h := sum_map_set (fun l => l.count pa) s.freelists cpu
      (pa :: s.freelists.getD cpu []) hcpu
    simp only [List.count_cons_self] at h
    omega

/-- Closed instance of the amended C6 statement: freeing frame 4096 on
CPU 0 from an empty pool puts it on CPU 0's list and raises its free
occurrence count from 0 to 1. -/
theorem kfree_returns_frame_every_call_C6_witness :
    ∃ s1, kfree 4096 8192 0 4096 (⟨[[]], []⟩ : Kmem) = some s1 ∧
      s1.freelists.getD 0 [] = 4096 :: (⟨[[]], []⟩ : Kmem).freelists.getD 0 [] ∧
      frameCount 4096 s1 = frameCount 4096 (⟨[[]], []⟩ : Kmem) + 1 :=
  kfree_returns_frame_every_call_C6 4096 8192 0 4096 ⟨[[]], []⟩
    (by decide) (by decide) (by decide) (by decide)

/-! #### C7: `kfree` fatal-check and free-list placement -/

/-- C7: `kfree` panics exactly when the address is misaligned or
outside `[end, PHYSTOP)`; for a valid address, the frame is
content-poisoned (fill byte 1) and pushed at the head of the freeing
CPU's own free list, while every other CPU's free list is left
untouched. -/
theorem kfree_spec_C7 (endA pt cpu pa : Nat) (s : Kmem)
    (hcpu : cpu < s.freelists.length) :
    (kfree endA pt cpu pa s = none ↔ (pa % PGSIZE ≠ 0 ∨ pa < endA ∨ pt ≤ pa)) ∧
    (∀ s1, kfree endA pt cpu pa s = some s1 →
      s1.fill.lookup pa = some 1 ∧
      s1.freelists.getD cpu [] = pa :: s.freelists.getD cpu [] ∧
      ∀ j, j ≠ cpu → s1.freelists.getD j [] = s.freelists.getD j []) := by
  by_cases h : pa % PGSIZE ≠ 0 ∨ pa < endA ∨ pt ≤ pa
  · refine ⟨by simp [kfree, h], ?_⟩
    intro s1 hs1
    rw [kfree, if_pos h] at hs1
    cases hs1
  · refine ⟨by simp [kfree, h], ?_⟩
    intro s1 hs1
    rw [kfree, if_neg h] at hs1
    simp only [Option.some_inj] at hs1
    subst hs1
    refine ⟨by simp [List.lookup], getD_set_self _ _ _ _ hcpu, ?_⟩
    intro j hj
    exact getD_set_ne _ _ _ _ _ (fun he => hj he.symm)

/-- Closed instance of C7: on a two-CPU pool, freeing the misaligned
address 4097 panics, and freeing the valid frame 4096 on CPU 0 poisons
it, pushes it on CPU 0's list, and leaves CPU 1's list alone. -/
theorem kfree_spec_C7_witness :
    kfree 4096 12288 0 4097 (⟨[[], [8192]], []⟩ : Kmem) = none ∧
    ∀ s1, kfree 4096 12288 0 4096 (⟨[[], [8192]], []⟩ : Kmem) = some s1 →
      s1.fill.lookup 4096 = some 1 ∧
      s1.freelists.getD 0 [] = 4096 :: (⟨[[], [8192]], []⟩ : Kmem).freelists.getD 0 [] ∧
      ∀ j, j ≠ 0 → s1.freelists.getD j [] = (⟨[[], [8192]], []⟩ : Kmem).freelists.getD j [] :=
  ⟨(kfree_spec_C7 4096 12288 0 4097 ⟨[[], [8192]], []⟩ (by decide)).1.mpr (by decide),
   fun s1 h => (kfree_spec_C7 4096 12288 0 4096 ⟨[[], [8192]], []⟩ (by decide)).2 s1 h⟩

/-! #### C9: `bwrite` requires the lock and has no cache side effect -/

/-- C9: `bwrite` panics exactly when the calling thread does not hold
the slot's exclusive sleep-lock; when it does hold it, the slot's
content is written to the disk under the slot's `(dev, blockno)`
identity and the cache state is left completely unchanged (so
`refcnt`, identity, `valid` and every bucket list are untouched). -/
theorem bwrite_spec_C9 (s : BCache) (d : Disk) (i tid : Nat) :
    (bwrite i tid s d = none ↔ ¬ (s.bufs.getD i Buf.startup).holder = some tid) ∧
    (∀ s1 d1, bwrite i tid s d = some (s1, d1) →
      s1 = s ∧
      diskRead d1 (s.bufs.getD i Buf.startup).dev (s.bufs.getD i Buf.startup).blockno
        = (s.bufs.getD i Buf.startup).data) := by
  by_cases h : (s.bufs.getD i Buf.startup).holder = some tid
  · refine ⟨by simp [bwrite, h], ?_⟩
    intro s1 d1 hs
    rw [bwrite, if_pos h] at hs
    simp only [Option.some_inj, Prod.mk.injEq] at hs
    obtain ⟨h1, h2⟩ := hs
    subst h1
    subst h2
    exact ⟨rfl, by simp [diskRead, List.lookup]⟩
  · refine ⟨by simp [bwrite, h], ?_⟩
    intro s1 d1 hs
    rw [bwrite, if_neg h] at hs
    cases hs

/-- Closed instance of C9: thread 3 holds slot 0's lock, so `bwrite`
succeeds, changes nothing in the cache, and the disk afterwards holds
the slot's content under its identity; thread 4 does not hold it, so
`bwrite` panics. -/
theorem bwrite_spec_C9_witness :
    (bwrite 0 4 (⟨[⟨1, 2, true, 1, some 3, 99⟩], [[0]]⟩ : BCache) [] = none) ∧
    ∀ s1 d1, bwrite 0 3 (⟨[⟨1, 2, true, 1, some 3, 99⟩], [[0]]⟩ : BCache) [] = some (s1, d1) →
      s1 = (⟨[⟨1, 2, true, 1, some 3, 99⟩], [[0]]⟩ : BCache) ∧
      diskRead d1 ((⟨[⟨1, 2, true, 1, some 3, 99⟩], [[0]]⟩ : BCache).bufs.getD 0 Buf.startup).dev
          ((⟨[⟨1, 2, true, 1, some 3, 99⟩], [[0]]⟩ : BCache).bufs.getD 0 Buf.startup).blockno
        = ((⟨[⟨1, 2, true, 1, some 3, 99⟩], [[0]]⟩ : BCache).bufs.getD 0 Buf.startup).data :=
  ⟨(bwrite_spec_C9 ⟨[⟨1, 2, true, 1, some 3, 99⟩], [[0]]⟩ [] 0 4).1.mpr (by decide),
   fun s1 d1 h => (bwrite_spec_C9 ⟨[⟨1, 2, true, 1, some 3, 99⟩], [[0]]⟩ [] 0 3).2 s1 d1 h⟩

/-! #### C10: `bunpin` decrements without any check and wraps at 0 -/

/-- C10: `bunpin` is total — it never fails, fatally or otherwise (its
`bstep` always produces a state) — and performs the raw C `uint`
decrement with no positivity check, so on a slot whose `refcnt` is 0 it
wraps the count to `2 ^ 32 - 1`, a nonzero value, leaving the slot
non-recyclable (every eviction site requires `refcnt == 0`). -/
theorem bunpin_spec_C10 (s : BCache) (d : Disk) (i : Nat) (hi : i < s.bufs.length) :
    bstep (BOp.unpin i) s d = some (bunpin i s, d) ∧
    ((bunpin i s).bufs.getD i Buf.startup).refcnt
      = decWrap (s.bufs.getD i Buf.startup).refcnt ∧
    ((s.bufs.getD i Buf.startup).refcnt = 0 →
      ((bunpin i s).bufs.getD i Buf.startup).refcnt = 2 ^ 32 - 1 ∧
      ((bunpin i s).bufs.getD i Buf.startup).refcnt ≠ 0) := by
  have hr : ((bunpin i s).bufs.getD i Buf.startup).refcnt
      = decWrap (s.bufs.getD i Buf.startup).refcnt := by
    show ((s.bufs.set i _).getD i Buf.startup).refcnt = _
    rw [getD_set_self _ _ _ _ hi]
  refine ⟨rfl, hr, ?_⟩
  intro h0
  have : decWrap (s.bufs.getD i Buf.startup).refcnt = 2 ^ 32 - 1 := by
    rw [h0]
    show (0 + (U32 - 1)) % U32 = 2 ^ 32 - 1
    rw [Nat.zero_add, Nat.mod_eq_of_lt (by norm_num [U32])]
    rfl
  rw [hr, this]
  exact ⟨rfl, by norm_num⟩

/-- Closed instance of C10 at a slot whose `refcnt` is already 0. -/
theorem bunpin_spec_C10_witness :
    ((bunpin 0 (⟨[⟨1, 2, true, 0, none, 0⟩], [[0]]⟩ : BCache)).bufs.getD 0 Buf.startup).refcnt
      = 2 ^ 32 - 1 :=
  ((bunpin_spec_C10 ⟨[⟨1, 2, true, 0, none, 0⟩], [[0]]⟩ [] 0 (by decide)).2.2 (by decide)).1

/-! #### C4: `kalloc` exhaustion happens only when every free list is empty -/

theorem getD_eq_of_getElem {α : Type} (l : List α) (i : Nat) (d a : α) (hi : i < l.length)
    (h : l[i] = a) : l.getD i d = a := by
  rw [List.getD_eq_getElem?_getD, List.getElem?_eq_getElem hi, h]
  rfl

theorem getD_eq_nil_of_all_nil (ks : List (List Nat)) (h : ∀ l ∈ ks, l = []) (j : Nat) :
    ks.getD j [] = [] := by
  by_cases hj : j < ks.length
  · exact h _ (getD_mem_of_lt ks j [] hj)
  · exact getD_of_length_le ks j [] (Nat.le_of_not_lt hj)

/-- A `steal` pass over an entirely empty pool changes nothing. -/
theorem stealFrom_of_all_nil (cpu : Nat) (idxs : List Nat) (ks : List (List Nat))
    (h : ∀ l ∈ ks, l = []) : stealFrom cpu idxs ks = ks := by
  induction idxs with
  | nil => rfl
  | cons j rest ih =>
    rw [stealFrom]
    by_cases hj : j = cpu
    · rw [if_pos hj]
      exact ih
    · rw [if_neg hj, getD_eq_nil_of_all_nil ks h j]
      exact ih

/-- A `steal` pass never shrinks the scavenging CPU's own list. -/
theorem stealFrom_local_length (cpu : Nat) (idxs : List Nat) (ks : List (List Nat))
    (hcpu : cpu < ks.length) :
    (ks.getD cpu []).length ≤ ((stealFrom cpu idxs ks).getD cpu []).length := by
  induction idxs generalizing ks with
  | nil => exact Nat.le_refl _
  | cons j rest ih =>
    rw [stealFrom]
    by_cases hj : j = cpu
    · rw [if_pos hj]
      exact ih ks hcpu
    · rw [if_neg hj]
      cases hk : ks.getD j [] with
      | nil => exact ih ks hcpu
      | cons r tail =>
        have hlen : cpu < ((ks.set j tail).set cpu (r :: ks.getD cpu [])).length := by
          simpa using hcpu
        have hget : ((ks.set j tail).set cpu (r :: ks.getD cpu [])).getD cpu []
            = r :: ks.getD cpu [] :=
          getD_set_self _ _ _ _ (by simpa using hcpu)
        have hrec := ih ((ks.set j tail).set cpu (r :: ks.getD cpu [])) hlen
        rw [hget] at hrec
        exact Nat.le_trans (by simp) hrec

/-- If some other CPU's list is nonempty when the pass starts, the
scavenging CPU's list is nonempty when the pass ends. -/
theorem stealFrom_local_ne_nil (cpu : Nat) (idxs : List Nat) (ks : List (List Nat))
    (hcpu : cpu < ks.length)
    (hex : ∃ j ∈ idxs, j ≠ cpu ∧ ks.getD j [] ≠ []) :
    (stealFrom cpu idxs ks).getD cpu [] ≠ [] := by
  induction idxs generalizing ks with
  | nil =>
    obtain ⟨j, hj, _⟩ := hex
    cases hj
  | cons j0 rest ih =>
    obtain ⟨j, hjmem, hjne, hjnil⟩ := hex
    rw [stealFrom]
    by_cases hj0 : j0 = cpu
    · rw [if_pos hj0]
      refine ih ks hcpu ⟨j, ?_, hjne, hjnil⟩
      cases List.mem_cons.mp hjmem with
      | inl h => exact absurd (h.trans hj0) hjne
      | inr h => exact h
    · rw [if_neg hj0]
      cases hk : ks.getD j0 [] with
      | nil =>
        refine ih ks hcpu ⟨j, ?_, hjne, hjnil⟩
        cases List.mem_cons.mp hjmem with
        | inl h => exact absurd (by rw [h]; exact hk) hjnil
        | inr h => exact h
      | cons r tail =>
        have hlen : cpu < ((ks.set j0 tail).set cpu (r :: ks.getD cpu [])).length := by
          simpa using hcpu
        have hget : ((ks.set j0 tail).set cpu (r :: ks.getD cpu [])).getD cpu []
            = r :: ks.getD cpu [] :=
          getD_set_self _ _ _ _ (by simpa using hcpu)
        have hle := stealFrom_local_length cpu rest _ hlen
        rw [hget] at hle
        intro hnil
        rw [hnil] at hle
        simp at hle

/-- `kalloc` reports exhaustion exactly when every CPU's free list is
empty at the call. -/
theorem kalloc_fst_none_iff (cpu : Nat) (s : Kmem) (hcpu : cpu < s.freelists.length) :
    (kalloc cpu s).1 = none ↔ ∀ l ∈ s.freelists, l = [] := by
  have hcons : ∀ r rest, (kallocPool cpu s).freelists.getD cpu [] = r :: rest →
      (kalloc cpu s).1 = some r := by
    intro r rest h
    unfold kalloc
    rw [h]
  have hnil : (kallocPool cpu s).freelists.getD cpu [] = [] → (kalloc cpu s).1 = none := by
    intro h
    unfold kalloc
    rw [h]
  constructor
  · intro hnone l hlmem
    by_contra hlne
    obtain ⟨j, hjlt, hjget⟩ := List.mem_iff_getElem.mp hlmem
    have hgetD : s.freelists.getD j [] = l := getD_eq_of_getElem _ _ _ _ hjlt hjget
    have hloc : s.freelists.getD cpu [] = [] := by
      by_contra hloc
      have hpool : kallocPool cpu s = s := by rw [kallocPool, if_neg hloc]
      cases hl2 : s.freelists.getD cpu [] with
      | nil => exact hloc hl2
      | cons r rest =>
        have := hcons r rest (by rw [hpool, hl2])
        rw [this] at hnone
        cases hnone
    have hjne : j ≠ cpu := by
      intro he
      exact hlne (by rw [← hgetD, he]; exact hloc)
    have hpool : kallocPool cpu s = steal cpu s := by rw [kallocPool, if_pos hloc]
    have hsteal : (steal cpu s).freelists.getD cpu [] ≠ [] := by
      show (stealFrom cpu (List.range s.freelists.length) s.freelists).getD cpu [] ≠ []
      exact stealFrom_local_ne_nil cpu _ _ hcpu
        ⟨j, List.mem_range.mpr hjlt, hjne, by rw [hgetD]; exact hlne⟩
    cases hp : (kallocPool cpu s).freelists.getD cpu [] with
    | nil =>
      rw [hpool] at hp
      exact hsteal hp
    | cons r rest =>
      rw [hcons r rest hp] at hnone
      cases hnone
  · intro hall
    have hloc := getD_eq_nil_of_all_nil s.freelists hall cpu
    apply hnil
    rw [kallocPool, if_pos hloc]
    show (stealFrom cpu (List.range s.freelists.length) s.freelists).getD cpu [] = []
    rw [stealFrom_of_all_nil cpu _ _ hall]
    exact hloc

/-- C4: `kalloc` returns the null failure value exactly when, even
after the single scavenging pass over every other CPU's free list,
nothing is available — i.e. exactly when every CPU's free list is empty
at the call; and from a fully exhausted pool, one `kfree` of a valid
frame makes the next `kalloc` on the freeing CPU succeed and return
exactly that frame. -/
theorem kalloc_spec_C4 (cpu : Nat) (s : Kmem) (hcpu : cpu < s.freelists.length) :
    ((kalloc cpu s).1 = none ↔ ∀ l ∈ s.freelists, l = []) ∧
    (∀ endA pt pa, pa % PGSIZE = 0 → endA ≤ pa → pa < pt →
      (∀ l ∈ s.freelists, l = []) →
      ∀ s1, kfree endA pt cpu pa s = some s1 → (kalloc cpu s1).1 = some pa) := by
  refine ⟨kalloc_fst_none_iff cpu s hcpu, ?_⟩
  intro endA pt pa ha hlo hhi hall s1 hs1
  have hcond : ¬ (pa % PGSIZE ≠ 0 ∨ pa < endA ∨ pt ≤ pa) := by
    push_neg
    exact ⟨ha, hlo, hhi⟩
  rw [kfree, if_neg hcond] at hs1
  simp only [Option.some_inj] at hs1
  subst hs1
  have hget : (s.freelists.set cpu (pa :: s.freelists.getD cpu [])).getD cpu []
      = pa :: s.freelists.getD cpu [] := getD_set_self _ _ _ _ hcpu
  have hpool : kallocPool cpu ⟨s.freelists.set cpu (pa :: s.freelists.getD cpu []),
      (pa, 1) :: s.fill⟩ = ⟨s.freelists.set cpu (pa :: s.freelists.getD cpu []),
      (pa, 1) :: s.fill⟩ := by
    rw [kallocPool]
    rw [if_neg]
    show ¬ (s.freelists.set cpu (pa :: s.freelists.getD cpu [])).getD cpu [] = []
    rw [hget]
    simp
  unfold kalloc
  rw [hpool]
  show (match (s.freelists.set cpu (pa :: s.freelists.getD cpu [])).getD cpu [] with
    | [] => _ | r :: rest => (some r, _) : Option Nat × Kmem).1 = some pa
  rw [hget]

/-- Closed instance of C4: both CPUs empty, so `kalloc` fails; freeing
frame 8192 on CPU 0 makes the next `kalloc` on CPU 0 return 8192. -/
theorem kalloc_spec_C4_witness :
    (kalloc 0 (⟨[[], []], []⟩ : Kmem)).1 = none ∧
    ∀ s1, kfree 4096 12288 0 8192 (⟨[[], []], []⟩ : Kmem) = some s1 →
      (kalloc 0 s1).1 = some 8192 :=
  ⟨(kalloc_spec_C4 0 ⟨[[], []], []⟩ (by decide)).1.mpr (by decide),
   fun s1 h => (kalloc_spec_C4 0 ⟨[[], []], []⟩ (by decide)).2 4096 12288 8192
     (by decide) (by decide) (by decide) (by decide) s1 h⟩

/-! #### C5: a referenced slot is never repurposed -/

/-- A scan for a free slot only ever returns a slot whose `refcnt` is
0. -/
theorem findFree_refcnt (bufs : List Buf) (l : List Nat) (i : Nat)
    (h : findFree bufs l = some i) : (bufs.getD i Buf.startup).refcnt = 0 := by
  induction l with
  | nil => simp [findFree] at h
  | cons j rest ih =>
    rw [findFree] at h
    by_cases hj : (bufs.getD j Buf.startup).refcnt = 0
    · rw [if_pos hj] at h
      cases h
      exact hj
    · rw [if_neg hj] at h
      exact ih h

/-- The cross-bucket scan only ever returns a slot whose `refcnt` is
0. -/
theorem stealScan_refcnt (bufs : List Buf) (buckets : List (List Nat)) (h : Nat)
    (idxs : List Nat) (p i : Nat)
    (hs : stealScan bufs buckets h idxs = some (p, i)) :
    (bufs.getD i Buf.startup).refcnt = 0 := by
  induction idxs with
  | nil => simp [stealScan] at hs
  | cons p0 rest ih =>
    rw [stealScan] at hs
    split at hs
    · exact ih hs
    · split at hs
      next i0 hf =>
        simp only [Option.some_inj, Prod.mk.injEq] at hs
        obtain ⟨rfl, rfl⟩ := hs
        exact findFree_refcnt bufs _ _ hf
      next hf => exact ih hs

/-- Updating slot `j` with a buffer that keeps slot `j`'s identity
preserves every slot's identity. -/
theorem getD_set_ident (bufs : List Buf) (j : Nat) (b : Buf) (i : Nat)
    (hdev : b.dev = (bufs.getD j Buf.startup).dev)
    (hblk : b.blockno = (bufs.getD j Buf.startup).blockno) :
    ((bufs.set j b).getD i Buf.startup).dev = (bufs.getD i Buf.startup).dev ∧
    ((bufs.set j b).getD i Buf.startup).blockno = (bufs.getD i Buf.startup).blockno := by
  by_cases hij : j = i
  · subst hij
    by_cases hj : j < bufs.length
    · rw [getD_set_self _ _ _ _ hj]
      exact ⟨hdev, hblk⟩
    · rw [List.set_eq_of_length_le (Nat.le_of_not_lt hj)]
      exact ⟨rfl, rfl⟩
  · rw [getD_set_ne _ _ _ _ _ hij]
    exact ⟨rfl, rfl⟩

/-- The cross-bucket phase of `bget` never changes the identity of a
slot whose `refcnt` is nonzero. -/
theorem bgetSteal_pinned_identity (dev blockno tid : Nat) (s : BCache) (h : Nat)
    (j : Nat) (s1 : BCache)
    (hstep : bgetSteal dev blockno tid s h = some (j, s1)) (i : Nat)
    (hrc : (s.bufs.getD i Buf.startup).refcnt ≠ 0) :
    (s1.bufs.getD i Buf.startup).dev = (s.bufs.getD i Buf.startup).dev ∧
    (s1.bufs.getD i Buf.startup).blockno = (s.bufs.getD i Buf.startup).blockno := by
  unfold bgetSteal at hstep
  split at hstep
  · cases hstep
  · next p i0 heq =>
    simp only [Option.some_inj, Prod.mk.injEq] at hstep
    obtain ⟨hij, hs1⟩ := hstep
    subst hs1
    have h0 := stealScan_refcnt s.bufs s.buckets h _ p i0 heq
    have hne : i0 ≠ i := fun he => hrc (by rw [← he]; exact h0)
    constructor
    · show ((s.bufs.set i0 _).getD i Buf.startup).dev = _
      rw [getD_set_ne _ _ _ _ _ hne]
    · show ((s.bufs.set i0 _).getD i Buf.startup).blockno = _
      rw [getD_set_ne _ _ _ _ _ hne]

/-- `bget` never changes the identity of a slot whose `refcnt` is
nonzero: the hit path only bumps `refcnt`, and both eviction sites
require the victim's `refcnt` to be 0. -/
theorem bget_pinned_identity (dev blockno tid : Nat) (s : BCache)
    (j : Nat) (s1 : BCache)
    (hstep : bget dev blockno tid s = some (j, s1)) (i : Nat)
    (hrc : (s.bufs.getD i Buf.startup).refcnt ≠ 0) :
    (s1.bufs.getD i Buf.startup).dev = (s.bufs.getD i Buf.startup).dev ∧
    (s1.bufs.getD i Buf.startup).blockno = (s.bufs.getD i Buf.startup).blockno := by
  unfold bget at hstep
  split at hstep
  · next i0 hfh =>
    simp only [Option.some_inj, Prod.mk.injEq] at hstep
    obtain ⟨hij, hs1⟩ := hstep
    subst hs1
    exact getD_set_ident s.bufs i0 _ i rfl rfl
  · next hfh =>
    split at hstep
    · next i0 hh =>
      split at hstep
      · next h0 =>
        simp only [Option.some_inj, Prod.mk.injEq] at hstep
        obtain ⟨hij, hs1⟩ := hstep
        subst hs1
        have hne : i0 ≠ i := fun he => hrc (by rw [← he]; exact h0)
        constructor
        · show ((s.bufs.set i0 _).getD i Buf.startup).dev = _
          rw [getD_set_ne _ _ _ _ _ hne]
        · show ((s.bufs.set i0 _).getD i Buf.startup).blockno = _
          rw [getD_set_ne _ _ _ _ _ hne]
      · next h0 => exact bgetSteal_pinned_identity dev blockno tid s _ j s1 hstep i hrc
    · next hh => exact bgetSteal_pinned_identity dev blockno tid s _ j s1 hstep i hrc

/-- `bread` never changes the identity of a slot whose `refcnt` is
nonzero (the post-read update only sets `data`/`valid`). -/
theorem bread_pinned_identity (dev blockno tid : Nat) (s : BCache) (d : Disk)
    (j : Nat) (s1 : BCache)
    (hstep : bread dev blockno tid s d = some (j, s1)) (i : Nat)
    (hrc : (s.bufs.getD i Buf.startup).refcnt ≠ 0) :
    (s1.bufs.getD i Buf.startup).dev = (s.bufs.getD i Buf.startup).dev ∧
    (s1.bufs.getD i Buf.startup).blockno = (s.bufs.getD i Buf.startup).blockno := by
  unfold bread at hstep
  split at hstep
  · cases hstep
  · next i0 s2 hbg =>
    have hmid := bget_pinned_identity dev blockno tid s i0 s2 hbg i hrc
    split at hstep
    · simp only [Option.some_inj, Prod.mk.injEq] at hstep
      obtain ⟨hij, hs1⟩ := hstep
      subst hs1
      exact hmid
    · simp only [Option.some_inj, Prod.mk.injEq] at hstep
      obtain ⟨hij, hs1⟩ := hstep
      subst hs1
      have hpres := getD_set_ident s2.bufs i0
        ({ s2.bufs.getD i0 Buf.startup with
             data := diskRead d (s2.bufs.getD i0 Buf.startup).dev
                       (s2.bufs.getD i0 Buf.startup).blockno
           , valid := true }) i rfl rfl
      exact ⟨hpres.1.trans hmid.1, hpres.2.trans hmid.2⟩

/-- `brelse` never changes any slot's identity. -/
theorem brelse_ident (i0 tid : Nat) (s : BCache) (s1 : BCache)
    (hstep : brelse i0 tid s = some s1) (i : Nat) :
    (s1.bufs.getD i Buf.startup).dev = (s.bufs.getD i Buf.startup).dev ∧
    (s1.bufs.getD i Buf.startup).blockno = (s.bufs.getD i Buf.startup).blockno := by
  unfold brelse at hstep
  split at hstep
  · split at hstep
    · simp only [Option.some_inj] at hstep
      subst hstep
      exact getD_set_ident s.bufs i0 _ i rfl rfl
    · simp only [Option.some_inj] at hstep
      subst hstep
      exact getD_set_ident s.bufs i0 _ i rfl rfl
  · cases hstep

/-- C5: across every cache operation, a slot whose `refcnt` is at least
1 keeps its `(dev, blockno)` identity — only slots with `refcnt = 0`
are ever chosen as eviction victims and reassigned. -/
theorem no_repurpose_while_referenced_C5 (op : BOp) (s : BCache) (d : Disk)
    (s1 : BCache) (d1 : Disk) (i : Nat)
    (hstep : bstep op s d = some (s1, d1))
    (hrc : 1 ≤ (s.bufs.getD i Buf.startup).refcnt) :
    (s1.bufs.getD i Buf.startup).dev = (s.bufs.getD i Buf.startup).dev ∧
    (s1.bufs.getD i Buf.startup).blockno = (s.bufs.getD i Buf.startup).blockno := by
  have hrc' : (s.bufs.getD i Buf.startup).refcnt ≠ 0 := by omega
  cases op with
  | get dev blockno tid =>
    simp only [bstep, Option.map_eq_some'] at hstep
    obtain ⟨⟨j, s2⟩, hbg, hx⟩ := hstep
    simp only [Prod.mk.injEq] at hx
    obtain ⟨hs, hd⟩ := hx
    subst hs
    exact bget_pinned_identity dev blockno tid s j _ hbg i hrc'
  | read dev blockno tid =>
    simp only [bstep, Option.map_eq_some'] at hstep
    obtain ⟨⟨j, s2⟩, hbg, hx⟩ := hstep
    simp only [Prod.mk.injEq] at hx
    obtain ⟨hs, hd⟩ := hx
    subst hs
    exact bread_pinned_identity dev blockno tid s d j _ hbg i hrc'
  | write i0 tid =>
    simp only [bstep] at hstep
    unfold bwrite at hstep
    split at hstep
    · simp only [Option.some_inj, Prod.mk.injEq] at hstep
      obtain ⟨hs, hd⟩ := hstep
      subst hs
      exact ⟨rfl, rfl⟩
    · cases hstep
  | relse i0 tid =>
    simp only [bstep, Option.map_eq_some'] at hstep
    obtain ⟨s2, hbr, hx⟩ := hstep
    simp only [Prod.mk.injEq] at hx
    obtain ⟨hs, hd⟩ := hx
    subst hs
    exact brelse_ident i0 tid s _ hbr i
  | pin i0 =>
    simp only [bstep, Option.some_inj, Prod.mk.injEq] at hstep
    obtain ⟨hs, hd⟩ := hstep
    subst hs
    exact getD_set_ident s.bufs i0 _ i rfl rfl
  | unpin i0 =>
    simp only [bstep, Option.some_inj, Prod.mk.injEq] at hstep
    obtain ⟨hs, hd⟩ := hstep
    subst hs
    exact getD_set_ident s.bufs i0 _ i rfl rfl

/-- Closed instance of C5: pinning a referenced slot leaves its
identity untouched. -/
theorem no_repurpose_while_referenced_C5_witness :
    ((bpin 0 (⟨[⟨1, 2, true, 1, some 3, 0⟩], [[0]]⟩ : BCache)).bufs.getD 0 Buf.startup).dev
      = (((⟨[⟨1, 2, true, 1, some 3, 0⟩], [[0]]⟩ : BCache)).bufs.getD 0 Buf.startup).dev ∧
    ((bpin 0 (⟨[⟨1, 2, true, 1, some 3, 0⟩], [[0]]⟩ : BCache)).bufs.getD 0 Buf.startup).blockno
      = (((⟨[⟨1, 2, true, 1, some 3, 0⟩], [[0]]⟩ : BCache)).bufs.getD 0 Buf.startup).blockno :=
  no_repurpose_while_referenced_C5 (BOp.pin 0) ⟨[⟨1, 2, true, 1, some 3, 0⟩], [[0]]⟩ []
    (bpin 0 ⟨[⟨1, 2, true, 1, some 3, 0⟩], [[0]]⟩) [] 0 rfl (by decide)

/-! #### C8: `brelse` lock check, decrement, and MRU relink -/

theorem getD_map_erase (bks : List (List Nat)) (i j : Nat) (hj : j < bks.length) :
    (bks.map (fun l => l.erase i)).getD j [] = (bks.getD j []).erase i := by
  rw [List.getD_eq_getElem?_getD, List.getD_eq_getElem?_getD, List.getElem?_map,
    List.getElem?_eq_getElem hj]
  rfl

/-- C8: `brelse` panics exactly when the caller does not hold the
slot's sleep-lock; otherwise it releases the lock and decrements
`refcnt`, relinking the slot at the head of its bucket
(`b->blockno % NBUCKET`) exactly when the decrement reaches 0 (and
leaving every bucket list untouched otherwise); and the `bget`
cache-hit path returns the matching slot with every bucket list
unchanged — recency is only updated on release. -/
theorem brelse_spec_C8 (s : BCache) (i tid : Nat) (hi : i < s.bufs.length)
    (hb : 0 < s.buckets.length) :
    (brelse i tid s = none ↔ ¬ (s.bufs.getD i Buf.startup).holder = some tid) ∧
    (∀ s1, brelse i tid s = some s1 →
      (s1.bufs.getD i Buf.startup).holder = none ∧
      (s1.bufs.getD i Buf.startup).refcnt = decWrap (s.bufs.getD i Buf.startup).refcnt ∧
      (decWrap (s.bufs.getD i Buf.startup).refcnt = 0 →
        s1.buckets.getD ((s.bufs.getD i Buf.startup).blockno % s.buckets.length) []
          = i :: ((s.buckets.getD
              ((s.bufs.getD i Buf.startup).blockno % s.buckets.length) []).erase i) ∧
        ∀ j, j ≠ (s.bufs.getD i Buf.startup).blockno % s.buckets.length →
          s1.buckets.getD j [] = (s.buckets.getD j []).erase i) ∧
      (¬ decWrap (s.bufs.getD i Buf.startup).refcnt = 0 → s1.buckets = s.buckets)) ∧
    (∀ dev blockno tid2 j,
      findHit s.bufs dev blockno (s.buckets.getD (blockno % s.buckets.length) []) = some j →
      ∃ s2, bget dev blockno tid2 s = some (j, s2) ∧ s2.buckets = s.buckets) := by
  have hhit : ∀ dev blockno tid2 j,
      findHit s.bufs dev blockno (s.buckets.getD (blockno % s.buckets.length) []) = some j →
      ∃ s2, bget dev blockno tid2 s = some (j, s2) ∧ s2.buckets = s.buckets := by
    intro dev blockno tid2 j hfh
    refine ⟨{ s with
        bufs := s.bufs.set j
                  ({ s.bufs.getD j Buf.startup with
                       refcnt := incWrap (s.bufs.getD j Buf.startup).refcnt
                     , holder := some tid2 }) }, ?_, rfl⟩
    unfold bget
    rw [hfh]
  by_cases hh : (s.bufs.getD i Buf.startup).holder = some tid
  · refine ⟨⟨?_, ?_⟩, ?_, hhit⟩
    · intro hnone
      unfold brelse at hnone
      rw [if_pos hh] at hnone
      split at hnone <;> cases hnone
    · intro hcon
      exact absurd hh hcon
    · intro s1 hs1
      unfold brelse at hs1
      rw [if_pos hh] at hs1
      by_cases h0 : decWrap (s.bufs.getD i Buf.startup).refcnt = 0
      · rw [if_pos h0] at hs1
        simp only [Option.some_inj] at hs1
        subst hs1
        refine ⟨?_, ?_, ?_, fun hcon => absurd h0 hcon⟩
        · show ((s.bufs.set i _).getD i Buf.startup).holder = none
          rw [getD_set_self _ _ _ _ hi]
        · show ((s.bufs.set i _).getD i Buf.startup).refcnt = _
          rw [getD_set_self _ _ _ _ hi]
        · intro _
          constructor
          · have hlen : (s.bufs.getD i Buf.startup).blockno % s.buckets.length
                < (s.buckets.map (fun l => l.erase i)).length := by
              rw [List.length_map]
              exact Nat.mod_lt _ hb
            show ((s.buckets.map (fun l => l.erase i)).set _ _).getD _ [] = _
            rw [getD_set_self _ _ _ _ hlen, getD_map_erase _ _ _ (Nat.mod_lt _ hb)]
          · intro j hj
            show ((s.buckets.map (fun l => l.erase i)).set _ _).getD j [] = _
            rw [getD_set_ne _ _ _ _ _ (fun he => hj he.symm)]
            by_cases hjlt : j < s.buckets.length
            · exact getD_map_erase s.buckets i j hjlt
            · rw [getD_of_length_le _ _ _ (by rw [List.length_map]; omega),
                getD_of_length_le _ _ _ (by omega)]
              rfl
      · rw [if_neg h0] at hs1
        simp only [Option.some_inj] at hs1
        subst hs1
        refine ⟨?_, ?_, fun hcon => absurd hcon h0, fun _ => rfl⟩
        · show ((s.bufs.set i _).getD i Buf.startup).holder = none
          rw [getD_set_self _ _ _ _ hi]
        · show ((s.bufs.set i _).getD i Buf.startup).refcnt = _
          rw [getD_set_self _ _ _ _ hi]
  · refine ⟨⟨fun _ => hh, ?_⟩, ?_, hhit⟩
    · intro _
      unfold brelse
      rw [if_neg hh]
    · intro s1 hs1
      unfold brelse at hs1
      rw [if_neg hh] at hs1
      cases hs1

/-- The pre-release state used to instantiate C8: thread 3 holds slot
0's lock, slot 0's `refcnt` is 1 and its home bucket (block 2 mod 2
buckets = bucket 0) lists slot 1 before slot 0. -/
def relStateC8 : BCache :=
  ⟨[⟨1, 2, true, 1, some 3, 0⟩, ⟨5, 6, false, 2, none, 0⟩], [[1, 0], []]⟩

/-- The state `brelse` produces from `relStateC8`: lock released,
`refcnt` 0, slot 0 relinked at the head of bucket 0. -/
def relAfterC8 : BCache :=
  ⟨[⟨1, 2, true, 0, none, 0⟩, ⟨5, 6, false, 2, none, 0⟩], [[0, 1], []]⟩

/-- Closed instance of C8 on `relStateC8`. -/
theorem brelse_spec_C8_witness :
    (relAfterC8.bufs.getD 0 Buf.startup).holder = none ∧
    (relAfterC8.bufs.getD 0 Buf.startup).refcnt
      = decWrap (relStateC8.bufs.getD 0 Buf.startup).refcnt ∧
    relAfterC8.buckets.getD
        ((relStateC8.bufs.getD 0 Buf.startup).blockno % relStateC8.buckets.length) []
      = 0 :: ((relStateC8.buckets.getD
          ((relStateC8.bufs.getD 0 Buf.startup).blockno % relStateC8.buckets.length) []).erase 0) := by
  have h := (brelse_spec_C8 relStateC8 0 3 (by decide) (by decide)).2.1 relAfterC8 (by decide)
  exact ⟨h.1, h.2.1, (h.2.2.1 (by decide)).1⟩

end OSLabs
